import Mathlib

/-!
Verification development for the Spoti-find core (void spot analysis).

The Python sources are shallowly embedded:
* pure geometry (`polygon_tools.py`) becomes functions over `List (ℤ × ℤ)`;
  Python floats are modelled as exact rationals where the arithmetic is
  rational, and as real numbers where `math.sqrt` / `math.pi` appear;
* the calibration model (`area_volume_map.py`) becomes functions over `ℚ`,
  with Python's `ZeroDivisionError` modelled as `none`;
* the stateful processor (`vsa.py`) becomes explicit state passing; masks are
  functions from (row, column) to the stored sample; external OpenCV
  operations (Otsu thresholding, contour tracing, polygon rasterization) are
  parameters of the embedded operations, and numpy conventions that the code
  relies on (None assignment into a float array, NaN division results, the
  uint8 cast) are modelled explicitly where they occur.
-/

namespace SpotiFind

/-- A polygon vertex: integer (x, y), as stored in the point lists of
`polygon_tools.py`. -/
abbrev Pt : Type := ℤ × ℤ

/-- One shoelace term of `polygon_signed_area`:
`pt_list[idx][1]*pt_list[idx+1][0] - pt_list[idx][0]*pt_list[idx+1][1]`. -/
def cross (p q : Pt) : ℤ := p.2 * q.1 - p.1 * q.2

/-- The for-loop of `polygon_signed_area`: shoelace terms over consecutive
vertex pairs, without the closing edge. -/
def crossSum : List Pt → ℤ
  | [] => 0
  | [_] => 0
  | p :: q :: rest => cross p q + crossSum (q :: rest)

/-- Embedding of `polygon_tools.polygon_signed_area`: returns 0.0 for fewer
than 3 points; otherwise sums the shoelace terms over consecutive vertices,
adds the closing term only when the first and last points differ, and divides
by 2.  Python float arithmetic on these integer inputs is modelled exactly
over `ℚ`. -/
def polygon_signed_area (l : List Pt) : ℚ :=
  if l.length < 3 then 0
  else
    ((crossSum l +
      (if l.headD (0, 0) ≠ l.getLastD (0, 0) then
        cross (l.getLastD (0, 0)) (l.headD (0, 0)) else 0) : ℤ) : ℚ) / 2

/-- Embedding of `polygon_tools.polygon_area`: the unsigned area, obtained
from the signed area by flipping the sign when negative. -/
def polygon_area (l : List Pt) : ℚ :=
  let area := polygon_signed_area l
  if area < 0 then -area else area

/-- Embedding of `polygon_tools.contour_to_polygon`: the OpenCV contour is a
numpy array of nested one-point rows; the function strips the nesting,
keeping the same point sequence.  With contours already modelled as point
lists, the conversion keeps the list. -/
def contour_to_polygon (contour : List Pt) : List Pt := contour

/-- Embedding of `polygon_tools.polygon_mbr`.  `min()` / `max()` of an empty
Python sequence raise `ValueError`; that failure is modelled as `none`.
The rectangle is `(min x, min y, max x - min x + 1, max y - min y + 1)`. -/
def polygon_mbr : List Pt → Option (ℤ × ℤ × ℤ × ℤ)
  | [] => none
  | p :: ps =>
    let xmin := (ps.map Prod.fst).foldl min p.1
    let xmax := (ps.map Prod.fst).foldl max p.1
    let ymin := (ps.map Prod.snd).foldl min p.2
    let ymax := (ps.map Prod.snd).foldl max p.2
    some (xmin, ymin, xmax - xmin + 1, ymax - ymin + 1)

/-- Length of one polygon edge from `p` to `q`:
`math.sqrt(dx*dx + dy*dy)` with `dx = q[0] - p[0]`, `dy = q[1] - p[1]`. -/
noncomputable def edgeLen (p q : Pt) : ℝ :=
  Real.sqrt (((q.1 - p.1 : ℤ) : ℝ) * ((q.1 - p.1 : ℤ) : ℝ) +
    ((q.2 - p.2 : ℤ) : ℝ) * ((q.2 - p.2 : ℤ) : ℝ))

/-- The for-loop of `polygon_perimeter`: edge lengths between consecutive
vertices, without the closing edge. -/
noncomputable def pathLen : List Pt → ℝ
  | [] => 0
  | [_] => 0
  | p :: q :: rest => edgeLen p q + pathLen (q :: rest)

/-- Embedding of `polygon_tools.polygon_perimeter`: consecutive edge lengths
plus the closing edge from the last point back to the first.  On the empty
list the Python code evaluates `pt_list[0]` and raises `IndexError`; that
failure is modelled as `none`. -/
noncomputable def polygon_perimeter : List Pt → Option ℝ
  | [] => none
  | p :: ps => some (pathLen (p :: ps) + edgeLen ((p :: ps).getLastD p) p)

/-- Embedding of `polygon_tools.circularity`: computes the perimeter `L`
(which raises on the empty list, modelled `none`), returns 0.0 when
`L <= 0.0`, and otherwise `4*pi*A / (L*L)` with `A` the unsigned area. -/
noncomputable def circularity (polygon : List Pt) : Option ℝ :=
  match polygon_perimeter polygon with
  | none => none
  | some L =>
    if L ≤ 0 then some 0
    else some ((4 * Real.pi * (polygon_area polygon : ℝ)) / (L * L))

/-- The axis-aligned square of side `s` anchored at `(x, y)`, listed by its
4 corner vertices in traversal order. -/
def squarePoly (x y s : ℤ) : List Pt := [(x, y), (x + s, y), (x + s, y + s), (x, y + s)]

/-- Python float division `a / b`: raises `ZeroDivisionError` when `b == 0.0`
(modelled as `none`); otherwise exact rational division. -/
def pyDiv (a b : ℚ) : Option ℚ := if b = 0 then none else some (a / b)

/-- The accumulator loop of `_compute_linear_model` for `sum_xx`:
`sum_xx += point[0]**2`. -/
def sum_xx (points : List (ℚ × ℚ)) : ℚ := points.foldl (fun acc p => acc + p.1 ^ 2) 0

/-- The accumulator loop of `_compute_linear_model` for `sum_xy`:
`sum_xy += point[0]*point[1]`. -/
def sum_xy (points : List (ℚ × ℚ)) : ℚ := points.foldl (fun acc p => acc + p.1 * p.2) 0

/-- Accumulated power sum of `_compute_second_order_model`: `a1`/`b2` gather
`x**3`, `b1` gathers `x**2`, `a2` gathers `x**4`, `c1` gathers `x*y` and
`c2` gathers `x*x*y`; `powerSum i j` is the sum of `x^i * y^j`. -/
def powerSum (i j : ℕ) (points : List (ℚ × ℚ)) : ℚ :=
  points.foldl (fun acc p => acc + p.1 ^ i * p.2 ^ j) 0

/-- Embedding of `AreaVolumeMap._compute_second_order_model`
(`area_volume_map.py`): Cramer's rule on the 2x2 normal equations, with
`a1 = sum x^3`, `b1 = sum x^2`, `c1 = sum x*y`, `a2 = sum x^4`,
`b2 = sum x^3`, `c2 = sum x*x*y`; the code divides by `a1*b2 - a2*b1`
without a guard, so a zero determinant raises `ZeroDivisionError`
(modelled as `none`).  Returns `(c2, c1)` in the order the code assigns. -/
def compute_second_order_model (points : List (ℚ × ℚ)) : Option (ℚ × ℚ) :=
  let a1 := powerSum 3 0 points
  let b1 := powerSum 2 0 points
  let c1 := powerSum 1 1 points
  let a2 := powerSum 4 0 points
  let b2 := powerSum 3 0 points
  let c2 := powerSum 2 1 points
  match pyDiv (b2 * c1 - b1 * c2) (a1 * b2 - a2 * b1),
        pyDiv (a1 * c2 - a2 * c1) (a1 * b2 - a2 * b1) with
  | some v2, some v1 => some (v2, v1)
  | _, _ => none

/-- Embedding of `AreaVolumeMap._compute_linear_model`: least squares through
the origin, `c1 = sum_xy / sum_xx`; the division is unguarded, so
`sum_xx == 0` raises `ZeroDivisionError` (modelled as `none`). -/
def compute_linear_model (points : List (ℚ × ℚ)) : Option ℚ :=
  pyDiv (sum_xy points) (sum_xx points)

/-- Embedding of `AreaVolumeMap.compute_model`: resets `c1 = c2 = 0`; returns
`False` on an empty point list; fits the linear model for 1..3 points and the
second-order model for 4 or more.  The result is `(success, c1, c2)`; `none`
models an uncaught `ZeroDivisionError` escaping the call. -/
def compute_model (points : List (ℚ × ℚ)) : Option (Bool × ℚ × ℚ) :=
  if points.length ≤ 0 then some (false, 0, 0)
  else if points.length ≤ 3 then
    match compute_linear_model points with
    | none => none
    | some v1 => some (true, v1, 0)
  else
    match compute_second_order_model points with
    | none => none
    | some (v2, v1) => some (true, v1, v2)

/-- Embedding of `AreaVolumeMap.map_area`: `V(a) = c2*a^2 + c1*a`. -/
def map_area (c1 c2 a : ℚ) : ℚ := c2 * a * a + c1 * a

/-- A grayscale raster: height, width, and the stored intensity sample at
(row, column), as indexed by `img[y, x]` in the numpy code. -/
structure Img where
  h : ℕ
  w : ℕ
  px : ℕ → ℕ → ℕ

/-- A rectangular region `[x, y, w, h]` as unpacked at the top of
`_find_spots_in_rect`. -/
structure Roi where
  x : ℕ
  y : ℕ
  w : ℕ
  h : ℕ

/-- The pixels of `roi_img = img_extended[y:y+h, x:x+w]` flattened row-major,
as in `roi_img.flatten().tolist()`. -/
def regionList (img : Img) (r : Roi) : List ℕ :=
  (List.range r.h).flatMap fun dy =>
    (List.range r.w).map fun dx => img.px (r.y + dy) (r.x + dx)

/-- The ROI pixel list after `np.sort`. -/
def sortedRegion (img : Img) (r : Roi) : List ℕ :=
  (regionList img r).mergeSort fun a b => decide (a ≤ b)

/-- The intensity range of the ROI: `max_val - min_val`, with
`min_val = tmp_list[0]` and `max_val = tmp_list[-1]` of the sorted pixels. -/
def regionRange (img : Img) (r : Roi) : ℕ :=
  (sortedRegion img r).getLastD 0 - (sortedRegion img r).headD 0

/-- Does `np.any(mask)` hold on the ROI-local binary mask, i.e. is any pixel
of the `h x w` window nonzero? -/
def maskAny (r : Roi) (m : ℕ → ℕ → ℕ) : Bool :=
  (List.range r.h).any fun dy => (List.range r.w).any fun dx => m dy dx != 0

/-- Embedding of `VsaProcessor._find_spots_in_rect`.  External inputs carried
as parameters: `otsu` models `cv2.threshold(..., THRESH_OTSU)` on the region
pixels (the triangle threshold is also computed by the code but its weight is
0.0, so it does not contribute), and `findContours` models
`cv2.findContours(..., RETR_EXTERNAL, CHAIN_APPROX_NONE)` on the ROI-local
mask.  `img_median` is the in-paper median stored by `extend_image`.  Steps:
sort the ROI pixels of the extended image and take min/max (the ROI median
and `median_loc` are computed only for the debug print and carry no effect);
clamp `otsu + threshold_adjustment` to `[1, 255]`; binarize the ROI strictly
above the threshold to 255/0; reject (returning no polygons and no mask) when
the mask is empty, when `thresh < img_median`, when the intensity range is
below `min_range`, or when `thresh - img_median < min_dist_from_median`;
otherwise trace contours, translate them by the ROI origin and convert to
polygons.  The returned mask is in ROI-local coordinates. -/
def find_spots_in_rect (otsu : List ℕ → ℤ)
    (findContours : Roi → (ℕ → ℕ → ℕ) → List (List Pt))
    (img_extended : Img) (img_median : ℚ) (r : Roi)
    (threshold_adjustment : ℤ) (min_range : ℕ) (min_dist_from_median : ℚ) :
    List (List Pt) × Option (ℕ → ℕ → ℕ) :=
  let thresh : ℤ := max 1 (min (otsu (regionList img_extended r) + threshold_adjustment) 255)
  let roi_mask : ℕ → ℕ → ℕ := fun dy dx =>
    if thresh < (img_extended.px (r.y + dy) (r.x + dx) : ℤ) then 255 else 0
  if ¬ maskAny r roi_mask then ([], none)
  else if (thresh : ℚ) < img_median then ([], none)
  else if regionRange img_extended r < min_range then ([], none)
  else if (thresh : ℚ) - img_median < min_dist_from_median then ([], none)
  else
    let contours := findContours r roi_mask
    let polygons := contours.map fun c =>
      contour_to_polygon (c.map fun p => (p.1 + (r.x : ℤ), p.2 + (r.y : ℤ)))
    (polygons, some roi_mask)

/-- A cell of the float64 array `np.zeros((h, w))` used by `segment_spots`:
either a numeric value or NaN.  Assigning the Python value `None` into a
float numpy array stores NaN, which is what
`self.spot_mask[y1:y2, x1:x2] = roi_mask` does on a rejected tile
(`roi_mask` is `None` there). -/
inductive FVal : Type
  | num (v : ℚ)
  | nan
deriving DecidableEq

/-- The cast `astype(np.uint8)` applied to one float cell: numeric values are
truncated and wrapped into 0..255 (the stitched values here are exactly 0.0
and 255.0, both preserved); NaN converts to 0, the behavior numpy exhibits on
the x86 targets this tool runs on. -/
def castU8 : FVal → ℕ
  | .num v => (⌊v⌋ % 256).toNat
  | .nan => 0

/-- A tile `[x1, y1, x2, y2]` of the whole-image tiling. -/
structure Tile where
  x1 : ℕ
  y1 : ℕ
  x2 : ℕ
  y2 : ℕ

/-- The tile grid built by `segment_spots`: `math.ceil(w / win_size)` columns
and `math.ceil(h / win_size)` rows (the ceiling of the exact division, here
`(n + win - 1) / win` over `ℕ`), row-major, each tile clipped to the image
bounds with `x2 = min(x1 + win_size, w)` and `y2 = min(y1 + win_size, h)`. -/
def tileList (h w win : ℕ) : List Tile :=
  (List.range ((h + win - 1) / win)).flatMap fun y_idx =>
    (List.range ((w + win - 1) / win)).map fun x_idx =>
      ⟨x_idx * win, y_idx * win, min (x_idx * win + win) w, min (y_idx * win + win) h⟩

/-- The ROI `[tile[0], tile[1], tile[2]-tile[0], tile[3]-tile[1]]` passed to
`_find_spots_in_rect` for a tile. -/
def tileRoi (t : Tile) : Roi := ⟨t.x1, t.y1, t.x2 - t.x1, t.y2 - t.y1⟩

/-- Does pixel (row y, column x) lie in the half-open window written by the
slice assignment `spot_mask[y1:y2, x1:x2]`? -/
def tileContains (t : Tile) (y x : ℕ) : Prop :=
  t.y1 ≤ y ∧ y < t.y2 ∧ t.x1 ≤ x ∧ x < t.x2

instance (t : Tile) (y x : ℕ) : Decidable (tileContains t y x) := by
  unfold tileContains; infer_instance

/-- One iteration of the stitching loop of `segment_spots`: the slice
`spot_mask[y1:y2, x1:x2] = roi_mask` writes the accepted ROI-local mask into
the window, or NaN-fills the window when the tile was rejected
(`roi_mask is None`). -/
def writeTile (find_mask : Roi → Option (ℕ → ℕ → ℕ)) (m : ℕ → ℕ → FVal)
    (t : Tile) : ℕ → ℕ → FVal :=
  match find_mask (tileRoi t) with
  | some rm => fun y x =>
      if tileContains t y x then .num (rm (y - t.y1) (x - t.x1)) else m y x
  | none => fun y x => if tileContains t y x then .nan else m y x

/-- Embedding of `VsaProcessor.segment_spots` (win_size defaults to 100,
`threshold_adjustment` to 0, `min_range` to 40, `min_dist_from_median` to
10): tiles the raster, runs `_find_spots_in_rect` on each tile and stitches
the per-tile masks into the float array `np.zeros((h, w))`, casts the result
with `astype(np.uint8)`, and finally forces pixels outside the paper mask to
background with `np.where(paper_mask == 0, 0, spot_mask)`. -/
def segment_spots (otsu : List ℕ → ℤ)
    (findContours : Roi → (ℕ → ℕ → ℕ) → List (List Pt))
    (img img_extended : Img) (img_median : ℚ) (paper_mask : ℕ → ℕ → ℕ)
    (threshold_adjustment : ℤ) (min_range : ℕ) (min_dist_from_median : ℚ)
    (win_size : ℕ) : ℕ → ℕ → ℕ :=
  let floatMask := (tileList img.h img.w win_size).foldl
    (writeTile fun roi =>
      (find_spots_in_rect otsu findContours img_extended img_median roi
        threshold_adjustment min_range min_dist_from_median).2)
    (fun _ _ => FVal.num 0)
  fun y x => if paper_mask y x = 0 then 0 else castU8 (floatMask y x)

/-- The tile of the grid that contains pixel (row y, column x): column index
`x / win`, row index `y / win`, clipped to the image bounds. -/
def tileAt (h w win y x : ℕ) : Tile :=
  ⟨x / win * win, y / win * win, min (x / win * win + win) w, min (y / win * win + win) h⟩

/-- The stateful part of `VsaProcessor` touched by the mask mutation
operations: whether an image is loaded (`self.img is None` guards), the spot
mask, its cached polygon list, and the paper mask. -/
structure VsaState where
  imgLoaded : Bool
  spot_mask : ℕ → ℕ → ℕ
  spot_polygons : List (List Pt)
  paper_mask : ℕ → ℕ → ℕ

/-- Embedding of `VsaProcessor._vectorize_spots`: re-derives the cached
polygon list by tracing external contours over the whole spot mask
(`findContours` models `cv2.findContours`). -/
def vectorize_spots (findContours : (ℕ → ℕ → ℕ) → List (List Pt))
    (s : VsaState) : VsaState :=
  { s with spot_polygons := (findContours s.spot_mask).map contour_to_polygon }

/-- Embedding of `VsaProcessor.fill_poly_selection`: no-op when no image is
loaded; otherwise sets every pixel covered by the rasterized polygon to 255
(`cv2.drawContours(..., color=255, thickness=FILLED)`, with the rasterizer
`raster` modelling which pixels the filled contour covers) and then
revectorizes.  The paper mask is not consulted. -/
def fill_poly_selection (raster : List Pt → ℕ → ℕ → Bool)
    (findContours : (ℕ → ℕ → ℕ) → List (List Pt))
    (s : VsaState) (polygon : List Pt) : VsaState :=
  if s.imgLoaded = false then s
  else vectorize_spots findContours
    { s with spot_mask := fun y x =>
        if raster polygon y x then 255 else s.spot_mask y x }

/-- Embedding of `VsaProcessor.clear_poly_selection`: identical to the fill
operation, but draws with `color=0` over the same rasterized region. -/
def clear_poly_selection (raster : List Pt → ℕ → ℕ → Bool)
    (findContours : (ℕ → ℕ → ℕ) → List (List Pt))
    (s : VsaState) (polygon : List Pt) : VsaState :=
  if s.imgLoaded = false then s
  else vectorize_spots findContours
    { s with spot_mask := fun y x =>
        if raster polygon y x then 0 else s.spot_mask y x }

/-- Division of numpy scalars `a / b` with `b` a count: numpy emits a
RuntimeWarning and yields NaN (or infinity) instead of raising when the
denominator is 0; the non-finite outcome is modelled as `none`. -/
def npDiv (a : ℚ) (b : ℕ) : Option ℚ := if b = 0 then none else some (a / (b : ℚ))

/-- The count `np.sum(spot_mask == 255)` in `measure_spots`: how many pixels
of the `H x W` raster the rasterized polygon covers. -/
def coveredCount (raster : List Pt → ℕ → ℕ → Bool) (H W : ℕ)
    (polygon : List Pt) : ℕ :=
  ((List.range H).map fun y =>
    ((List.range W).filter fun x => raster polygon y x).length).sum

/-- The sum `np.sum(np.where(spot_mask > 0, dist_map, 0))` in
`measure_spots`: distance-map values over the covered pixels. -/
def distSum (raster : List Pt → ℕ → ℕ → Bool) (dist_map : ℕ → ℕ → ℕ)
    (H W : ℕ) (polygon : List Pt) : ℕ :=
  ((List.range H).map fun y =>
    (((List.range W).filter fun x => raster polygon y x).map (dist_map y)).sum).sum

/-- The mean distance-to-edge computation of `measure_spots` (lines building
`ave_dist_to_edge_pix`): rasterize the polygon, count covered pixels, sum the
distance map over them, and divide `sum / count` with no guard on the
count. -/
def ave_dist_to_edge_pix (raster : List Pt → ℕ → ℕ → Bool)
    (dist_map : ℕ → ℕ → ℕ) (H W : ℕ) (polygon : List Pt) : Option ℚ :=
  npDiv ((distSum raster dist_map H W polygon : ℕ) : ℚ)
    (coveredCount raster H W polygon)

/-- Modelled from the spec: `pt.eccentricity` is called by `measure_spots`
but its definition is absent from the provided sources; the spec records the
exact formula as an open question and fixes only that the measurement stage
obtains one numeric value per polygon.  It is modelled as a fixed numeric. -/
def eccentricity (_polygon : List Pt) : ℚ := 0

/-- The classification step of `measure_spots`: the `'class'` key is
assigned only when the size-threshold list has exactly 3 entries, comparing
the mapped volume against them in ascending order; with any other list
length no key is assigned (`none`). -/
def classOf (size_thresh_list : List ℚ) (volume_ul : ℚ) : Option String :=
  match size_thresh_list with
  | [t0, t1, t2] =>
    some (if volume_ul < t0 then "junk"
      else if volume_ul < t1 then "nano"
      else if volume_ul < t2 then "micro"
      else "primary")
  | _ => none

/-- One per-spot measurement record of `measure_spots`
(`poly_props`).  The `cls` field is `none` when the code assigned no
`'class'` key. -/
structure SpotProps where
  img_x : ℤ
  img_y : ℤ
  img_w : ℤ
  img_h : ℤ
  perimeter_pix : ℝ
  perimeter_cm : ℝ
  area_pix2 : ℚ
  area_cm2 : ℚ
  volume_ul : ℚ
  cls : Option String
  ecc : ℚ
  ave_dist_pix : Option ℚ
  ave_dist_cm : Option ℚ
  points : List Pt

/-- The per-polygon body of the `measure_spots` loop.  An empty polygon makes
`polygon_mbr` raise `ValueError` and `polygon_perimeter` raise `IndexError`;
`pix_per_cm == 0` makes the Python float divisions for `perimeter_cm` and
`area_cm2` raise `ZeroDivisionError`; any such exception aborts the whole
call (modelled as `Except.error`).  The `'class'` key is assigned only when
the size-threshold list has exactly 3 entries, comparing the mapped volume
against them in ascending order.  The numpy division for the mean edge
distance does not raise (see `npDiv`). -/
noncomputable def buildSpotProps (raster : List Pt → ℕ → ℕ → Bool) (dist_map : ℕ → ℕ → ℕ)
    (H W : ℕ) (c1 c2 pix_per_cm : ℚ) (size_thresh_list : List ℚ)
    (polygon : List Pt) : Except String SpotProps :=
  match polygon_mbr polygon, polygon_perimeter polygon with
  | none, _ => .error "ValueError: empty polygon"
  | some _, none => .error "IndexError: empty polygon"
  | some (x, y, w, h), some perim =>
    if pix_per_cm = 0 then .error "ZeroDivisionError: pix_per_cm"
    else
      let area_pix2 := polygon_area polygon
      let area_cm2 := area_pix2 / pix_per_cm ^ 2
      let volume_ul := map_area c1 c2 area_cm2
      let cls : Option String := classOf size_thresh_list volume_ul
      let avePix := ave_dist_to_edge_pix raster dist_map H W polygon
      .ok {
        img_x := x, img_y := y, img_w := w, img_h := h
        perimeter_pix := perim
        perimeter_cm := perim / ((pix_per_cm : ℚ) : ℝ)
        area_pix2 := area_pix2
        area_cm2 := area_cm2
        volume_ul := volume_ul
        cls := cls
        ecc := eccentricity polygon
        ave_dist_pix := avePix
        ave_dist_cm := avePix.map (fun v => v / pix_per_cm)
        points := polygon }

/-- The accumulation loop of `measure_spots`: the records are built one by
one; the first exception aborts the call. -/
def buildAllProps (f : List Pt → Except String SpotProps) :
    List (List Pt) → Except String (List SpotProps)
  | [] => .ok []
  | p :: rest =>
    match f p with
    | .error e => .error e
    | .ok r =>
      match buildAllProps f rest with
      | .error e => .error e
      | .ok rs => .ok (r :: rs)

/-- The aggregation loop at the end of `measure_spots`: walk the records
sorted by descending volume; reading `prop['class']` raises `KeyError` when
the key was never assigned; stop at the first `'junk'` record, otherwise
accumulate `area_pix2`. -/
def sumNonJunk : List SpotProps → ℚ → Except String ℚ
  | [], acc => .ok acc
  | p :: rest, acc =>
    match p.cls with
    | none => .error "KeyError: class"
    | some c => if c = "junk" then .ok acc else sumNonJunk rest (acc + p.area_pix2)

/-- Embedding of `VsaProcessor.measure_spots`: build a measurement record per
spot polygon, sort the records by `volume_ul` descending (Python's stable
`sorted(..., reverse=True)`), and return the aggregated non-junk pixel
area. -/
noncomputable def measure_spots (raster : List Pt → ℕ → ℕ → Bool)
    (dist_map : ℕ → ℕ → ℕ) (H W : ℕ) (c1 c2 pix_per_cm : ℚ)
    (size_thresh_list : List ℚ) (polygons : List (List Pt)) :
    Except String ℚ :=
  match buildAllProps
      (buildSpotProps raster dist_map H W c1 c2 pix_per_cm size_thresh_list)
      polygons with
  | .error e => .error e
  | .ok props =>
    let sortedProps := props.mergeSort fun a b => decide (b.volume_ul ≤ a.volume_ul)
    sumNonJunk sortedProps 0

/-! Shoelace-sum lemmas used to settle the polygon-area claims. -/

theorem cross_self (p : Pt) : cross p p = 0 := by
  simp [cross, mul_comm]

theorem cross_antisymm (p q : Pt) : cross q p = -cross p q := by
  simp [cross]; ring

theorem crossSum_snoc :
    ∀ (l : List Pt) (b : Pt), crossSum (l ++ [b]) = crossSum l + cross (l.getLastD b) b
  | [], b => by simp [crossSum, cross_self]
  | [a], b => by simp [crossSum]
  | a :: c :: rest, b => by
    have ih := crossSum_snoc (c :: rest) b
    have hlast : (a :: c :: rest).getLastD b = (c :: rest).getLastD b := by
      rw [List.getLastD_eq_getLast?, List.getLastD_eq_getLast?, List.getLast?_cons_cons]
    calc crossSum ((a :: c :: rest) ++ [b])
        = cross a c + crossSum ((c :: rest) ++ [b]) := by simp [crossSum]
      _ = cross a c + (crossSum (c :: rest) + cross ((c :: rest).getLastD b) b) := by rw [ih]
      _ = crossSum (a :: c :: rest) + cross ((a :: c :: rest).getLastD b) b := by
          rw [hlast]; simp [crossSum]; ring

/-- The full cyclic shoelace sum: consecutive terms plus the closing term,
added unconditionally. -/
def cyclicSum (l : List Pt) : ℤ :=
  crossSum l + cross (l.getLastD (0, 0)) (l.headD (0, 0))

theorem polygon_signed_area_eq_cyclic (l : List Pt) (h : 3 ≤ l.length) :
    polygon_signed_area l = ((cyclicSum l : ℤ) : ℚ) / 2 := by
  rw [polygon_signed_area, if_neg (by omega)]
  by_cases hfl : l.headD (0, 0) ≠ l.getLastD (0, 0)
  · rw [if_pos hfl]; rfl
  · rw [if_neg hfl]
    push_neg at hfl
    rw [cyclicSum, hfl, cross_self]

theorem cyclicSum_rotate_one (l : List Pt) : cyclicSum (l.rotate 1) = cyclicSum l := by
  match l with
  | [] => rw [List.rotate_nil]
  | [x] =>
    rw [show (1 : ℕ) = 0 + 1 from rfl, List.rotate_cons_succ, List.rotate_zero]
    simp
  | x :: y :: ys =>
    rw [show (1 : ℕ) = 0 + 1 from rfl, List.rotate_cons_succ, List.rotate_zero]
    have hsnoc := crossSum_snoc (y :: ys) x
    have hlast : ((y :: ys) ++ [x]).getLastD (0, 0) = x := List.getLastD_concat _ _ _
    have hlast2 : (x :: y :: ys).getLastD (0, 0) = (y :: ys).getLastD x :=
      List.getLastD_cons _ _ _
    rw [cyclicSum, cyclicSum, hsnoc, hlast, hlast2]
    simp only [List.cons_append, List.headD_cons]
    simp [crossSum]
    ring

theorem cyclicSum_rotate (l : List Pt) (n : ℕ) : cyclicSum (l.rotate n) = cyclicSum l := by
  induction n generalizing l with
  | zero => rw [List.rotate_zero]
  | succ k ih =>
    have : l.rotate (k + 1) = (l.rotate 1).rotate k := by
      rw [List.rotate_rotate]; ring_nf
    rw [this, ih, cyclicSum_rotate_one]

theorem crossSum_reverse : ∀ l : List Pt, crossSum l.reverse = -crossSum l
  | [] => by simp [crossSum]
  | a :: l => by
    have ih := crossSum_reverse l
    have hrev : (a :: l).reverse = l.reverse ++ [a] := by simp
    have hlast : (l.reverse).getLastD a = l.headD a := by
      rw [List.getLastD_eq_getLast?, List.getLast?_reverse, List.headD_eq_head?]
    rw [hrev, crossSum_snoc, ih, hlast]
    match l with
    | [] => simp [crossSum, cross_self]
    | c :: rest =>
      rw [List.headD_cons, cross_antisymm]
      rw [show crossSum (a :: c :: rest) = cross a c + crossSum (c :: rest) from rfl]
      ring

theorem cyclicSum_reverse (l : List Pt) : cyclicSum l.reverse = -cyclicSum l := by
  match l with
  | [] => simp [cyclicSum, crossSum, cross_self]
  | a :: l =>
    have hh : ((a :: l).reverse).headD (0, 0) = (a :: l).getLastD (0, 0) := by
      rw [List.headD_eq_head?, List.head?_reverse, ← List.getLastD_eq_getLast?]
    have hl : ((a :: l).reverse).getLastD (0, 0) = (a :: l).headD (0, 0) := by
      rw [List.getLastD_eq_getLast?, List.getLast?_reverse, List.headD_eq_head?]
    rw [cyclicSum, cyclicSum, crossSum_reverse, hh, hl, cross_antisymm]
    ring

theorem polygon_signed_area_rotate (l : List Pt) (n : ℕ) :
    polygon_signed_area (l.rotate n) = polygon_signed_area l := by
  by_cases h : 3 ≤ l.length
  · rw [polygon_signed_area_eq_cyclic _ (by rw [List.length_rotate]; exact h),
      polygon_signed_area_eq_cyclic _ h, cyclicSum_rotate]
  · have h1 : (l.rotate n).length < 3 := by rw [List.length_rotate]; omega
    rw [polygon_signed_area, polygon_signed_area, if_pos h1, if_pos (by omega)]

theorem polygon_signed_area_reverse (l : List Pt) :
    polygon_signed_area l.reverse = -polygon_signed_area l := by
  by_cases h : 3 ≤ l.length
  · rw [polygon_signed_area_eq_cyclic _ (by rw [List.length_reverse]; exact h),
      polygon_signed_area_eq_cyclic _ h, cyclicSum_reverse]
    push_cast
    ring
  · have h1 : l.reverse.length < 3 := by rw [List.length_reverse]; omega
    rw [polygon_signed_area, polygon_signed_area, if_pos h1, if_pos (by omega)]
    ring

theorem polygon_area_eq_abs (l : List Pt) : polygon_area l = |polygon_signed_area l| := by
  rw [polygon_area]
  split
  · next h => exact (abs_of_neg h).symm
  · next h => exact (abs_of_nonneg (le_of_not_lt h)).symm

/-- C9: for every polygon (point list), the unsigned area computed by
`polygon_area` is invariant under cyclic rotation of the starting vertex and
under reversal of the traversal direction. -/
theorem polygon_area_rotation_reversal_invariant :
    ∀ (l : List Pt) (n : ℕ),
      polygon_area (l.rotate n) = polygon_area l ∧
      polygon_area l.reverse = polygon_area l := by
  intro l n
  constructor
  · rw [polygon_area_eq_abs, polygon_area_eq_abs, polygon_signed_area_rotate]
  · rw [polygon_area_eq_abs, polygon_area_eq_abs, polygon_signed_area_reverse, abs_neg]

/-- C6 counterexample: `compute_model` on the non-empty single point
`(0, 2)` (at most 3 points) does not return success with
`c1 = sum(A*V)/sum(A*A)`: the accumulated `sum_xx` is 0, so the unguarded
division raises `ZeroDivisionError` (modelled `none`), refuting the claim as
stated for every non-empty list of at most 3 points. -/
theorem compute_model_zero_area_crash :
    compute_model [((0 : ℚ), (2 : ℚ))] = none := by
  norm_num [compute_model, compute_linear_model, pyDiv, sum_xx, sum_xy]

/-- C6 (amended): `compute_model` sets `c1 = c2 = 0` and returns failure
exactly when the point list is empty (whenever it returns at all); for every
non-empty list of at most 3 points whose `sum_xx` is nonzero it returns
success with `c2 = 0` and `c1 = sum_xy / sum_xx` (for `sum_xx = 0` the
unguarded division raises instead); in particular `compute_model [(1, 2)]`
yields `c1 = 2` and `c2 = 0`. -/
theorem compute_model_small_point_sets :
    compute_model ([] : List (ℚ × ℚ)) = some (false, 0, 0) ∧
    (∀ points : List (ℚ × ℚ), points ≠ [] → points.length ≤ 3 → sum_xx points ≠ 0 →
      compute_model points = some (true, sum_xy points / sum_xx points, 0)) ∧
    compute_model [((1 : ℚ), (2 : ℚ))] = some (true, 2, 0) ∧
    (∀ (points : List (ℚ × ℚ)) (res : Bool × ℚ × ℚ),
      compute_model points = some res → (res.1 = false ↔ points = [])) := by
  refine ⟨by norm_num [compute_model], ?_,
    by norm_num [compute_model, compute_linear_model, pyDiv, sum_xx, sum_xy], ?_⟩
  · intro points hne hlen hxx
    have h0 : ¬ points.length ≤ 0 := by
      simpa [Nat.pos_iff_ne_zero] using List.length_pos.mpr hne
    rw [compute_model, if_neg h0, if_pos hlen, compute_linear_model, pyDiv, if_neg hxx]
  · intro points res h
    match points with
    | [] =>
      have hc : compute_model ([] : List (ℚ × ℚ)) = some (false, 0, 0) := by
        norm_num [compute_model]
      rw [hc] at h
      have h2 := Option.some.inj h
      subst h2
      simp
    | p :: l =>
      have h0 : ¬ (p :: l).length ≤ 0 := by simp
      have hne : p :: l ≠ [] := by simp
      rw [compute_model, if_neg h0] at h
      by_cases h3 : (p :: l).length ≤ 3
      · rw [if_pos h3] at h
        match hm : compute_linear_model (p :: l) with
        | none => rw [hm] at h; exact absurd h (by simp)
        | some v1 =>
          rw [hm] at h
          simp only [Option.some.injEq] at h
          simp [← h, hne]
      · rw [if_neg h3] at h
        match hm : compute_second_order_model (p :: l) with
        | none => rw [hm] at h; exact absurd h (by simp)
        | some (v2, v1) =>
          rw [hm] at h
          simp only [Option.some.injEq] at h
          simp [← h, hne]

/-- Witness for the amended C6 theorem at the single point `(1, 3)`. -/
theorem compute_model_small_point_sets_witness :
    compute_model [((1 : ℚ), (3 : ℚ))] =
      some (true, sum_xy [((1 : ℚ), (3 : ℚ))] / sum_xx [((1 : ℚ), (3 : ℚ))], 0) :=
  compute_model_small_point_sets.2.1 _ (by decide) (by decide) (by norm_num [sum_xx])

/-- C4 (code bug): on 4 calibration points that all share the same area, the
2x2 normal-equations determinant `a1*b2 - a2*b1` is zero and
`_compute_second_order_model` performs the division anyway, so the call dies
with an uncaught `ZeroDivisionError` (modelled `none`) instead of raising a
distinct typed fit-failure as the specification requires. -/
theorem compute_model_singular_determinant_crash :
    compute_model [((1 : ℚ), (1 : ℚ)), (1, 2), (1, 3), (1, 4)] = none := by
  norm_num [compute_model, compute_second_order_model, powerSum, pyDiv]

/-- C8: a rectangular region whose sorted-intensity range (`max - min`) is
strictly below `min_range` is always rejected by `_find_spots_in_rect` — no
spot polygons and no mask — regardless of the computed threshold (the Otsu
model, the adjustment and all other inputs are universally quantified). -/
theorem find_spots_rejects_below_min_range
    (otsu : List ℕ → ℤ) (findContours : Roi → (ℕ → ℕ → ℕ) → List (List Pt))
    (img_extended : Img) (img_median : ℚ) (r : Roi)
    (threshold_adjustment : ℤ) (min_range : ℕ) (min_dist_from_median : ℚ)
    (h : regionRange img_extended r < min_range) :
    find_spots_in_rect otsu findContours img_extended img_median r
      threshold_adjustment min_range min_dist_from_median = ([], none) := by
  rw [find_spots_in_rect]
  simp only [h, if_true]
  split
  · rfl
  · split
    · rfl
    · rfl

/-- Witness for C8 on a concrete constant 1x1 region with range 0 and
`min_range = 1`. -/
theorem find_spots_rejects_below_min_range_witness :
    find_spots_in_rect (fun _ => 0) (fun _ _ => []) ⟨1, 1, fun _ _ => 5⟩ 0
      ⟨0, 0, 1, 1⟩ 0 1 0 = ([], none) :=
  find_spots_rejects_below_min_range _ _ _ _ _ _ _ _
    (by simp [regionRange, sortedRegion, regionList, List.range_succ])

/-- C5 (code bug): whenever the rasterized polygon interior covers zero
pixels, the mean-distance step of `measure_spots` still executes
`sum / count`; numpy's zero-count division yields NaN silently (modelled
`none`), so no guard prevents the division, contrary to the
specification. -/
theorem ave_dist_zero_coverage_divides_silently
    (raster : List Pt → ℕ → ℕ → Bool) (dist_map : ℕ → ℕ → ℕ) (H W : ℕ)
    (polygon : List Pt) (h : coveredCount raster H W polygon = 0) :
    ave_dist_to_edge_pix raster dist_map H W polygon = none := by
  rw [ave_dist_to_edge_pix, npDiv, if_pos h]

/-- Witness for C5 at a concrete degenerate input: the empty polygon, whose
rasterization covers no pixel of a 1x1 raster. -/
theorem ave_dist_zero_coverage_divides_silently_witness :
    ave_dist_to_edge_pix (fun _ _ _ => false) (fun _ _ => 0) 1 1 [] = none :=
  ave_dist_zero_coverage_divides_silently _ _ _ _ _ (by decide)

/-! Perimeter and circularity of the axis-aligned square. -/

theorem edgeLen_horizontal (x y s x2 : ℤ) (hs : 0 ≤ s) (hx : x2 - x = s ∨ x - x2 = s) :
    edgeLen (x, y) (x2, y) = (s : ℝ) := by
  rw [edgeLen]
  have hsq : ((x2 - x : ℤ) : ℝ) * ((x2 - x : ℤ) : ℝ) = (s : ℝ) * (s : ℝ) := by
    rcases hx with h | h
    · rw [h]
    · have : x2 - x = -s := by omega
      rw [this]; push_cast; ring
  simp only [hsq, sub_self, Int.cast_zero, mul_zero, add_zero]
  exact Real.sqrt_mul_self (by exact_mod_cast hs)

theorem edgeLen_vertical (x y s y2 : ℤ) (hs : 0 ≤ s) (hy : y2 - y = s ∨ y - y2 = s) :
    edgeLen (x, y) (x, y2) = (s : ℝ) := by
  rw [edgeLen]
  have hsq : ((y2 - y : ℤ) : ℝ) * ((y2 - y : ℤ) : ℝ) = (s : ℝ) * (s : ℝ) := by
    rcases hy with h | h
    · rw [h]
    · have : y2 - y = -s := by omega
      rw [this]; push_cast; ring
  simp only [hsq, sub_self, Int.cast_zero, mul_zero, zero_add]
  exact Real.sqrt_mul_self (by exact_mod_cast hs)

theorem squarePoly_perimeter (x y s : ℤ) (hs : 0 ≤ s) :
    polygon_perimeter (squarePoly x y s) = some (4 * (s : ℝ)) := by
  rw [squarePoly, polygon_perimeter]
  have e1 : edgeLen (x, y) (x + s, y) = (s : ℝ) := edgeLen_horizontal _ _ _ _ hs (by omega)
  have e2 : edgeLen (x + s, y) (x + s, y + s) = (s : ℝ) := edgeLen_vertical _ _ _ _ hs (by omega)
  have e3 : edgeLen (x + s, y + s) (x, y + s) = (s : ℝ) := edgeLen_horizontal _ _ _ _ hs (by omega)
  have e4 : edgeLen (x, y + s) (x, y) = (s : ℝ) := edgeLen_vertical _ _ _ _ hs (by omega)
  simp only [pathLen, List.getLastD_cons, List.getLastD_nil, e1, e2, e3, e4]
  norm_num
  ring

theorem squarePoly_area (x y s : ℤ) (hs : s ≠ 0) :
    polygon_area (squarePoly x y s) = ((s : ℚ)) ^ 2 := by
  have hne : (squarePoly x y s).headD (0, 0) ≠ (squarePoly x y s).getLastD (0, 0) := by
    simp only [squarePoly, List.headD_cons, List.getLastD_cons, List.getLastD_nil,
      ne_eq, Prod.mk.injEq, not_and]
    intro _
    omega
  have hsigned : polygon_signed_area (squarePoly x y s) = -((s : ℚ)) ^ 2 := by
    rw [polygon_signed_area, if_neg (by norm_num [squarePoly]), if_pos hne]
    simp only [squarePoly, List.headD_cons, List.getLastD_cons, List.getLastD_nil,
      crossSum, cross]
    push_cast
    ring
  have hs2 : (0 : ℚ) < ((s : ℚ)) ^ 2 := by
    have : ((s : ℚ)) ≠ 0 := Int.cast_ne_zero.mpr hs
    positivity
  rw [polygon_area, hsigned, if_pos (by linarith)]
  ring

/-- C7 counterexample: the Python code does not return 0 (nor the formula
value) for the empty polygon — `polygon_perimeter` evaluates `pt_list[0]` and
raises `IndexError` before the `L <= 0` branch can apply (modelled `none`),
refuting the claim as stated for every polygon. -/
theorem circularity_empty_polygon_crash : circularity ([] : List Pt) = none := rfl

/-- C7 (amended): for every nonempty polygon, circularity equals
`4*pi*Area / Perimeter^2` and equals 0 when the perimeter is `<= 0`; in
particular, for every axis-aligned square of side `s > 0` given as its 4
corner vertices, circularity equals `pi/4` independent of `s` and of its
position. -/
theorem circularity_formula_and_square :
    (∀ (p : Pt) (ps : List Pt) (L : ℝ), polygon_perimeter (p :: ps) = some L →
      circularity (p :: ps) =
        some (if L ≤ 0 then 0 else 4 * Real.pi * (polygon_area (p :: ps) : ℝ) / L ^ 2)) ∧
    (∀ x y s : ℤ, 0 < s → circularity (squarePoly x y s) = some (Real.pi / 4)) := by
  constructor
  · intro p ps L hL
    rw [circularity, hL]
    dsimp only
    split
    · rfl
    · rw [pow_two]
  · intro x y s hs
    have hsR : (0 : ℝ) < (s : ℝ) := by exact_mod_cast hs
    have hper := squarePoly_perimeter x y s (le_of_lt hs)
    rw [circularity, hper]
    dsimp only
    rw [if_neg (not_le.mpr (by linarith)), squarePoly_area x y s (by omega)]
    have hsne : ((s : ℝ)) ≠ 0 := ne_of_gt hsR
    congr 1
    push_cast
    field_simp
    ring

/-- Witness for the amended C7 theorem: the unit square at the origin. -/
theorem circularity_formula_and_square_witness :
    circularity (squarePoly 0 0 1) = some (Real.pi / 4) :=
  circularity_formula_and_square.2 0 0 1 (by norm_num)

/-! Counterexample material for the spot-mask mutation claims.  OpenCV's
rasterization is a parameter of the embedded operations; the concrete
rasterizer below is fixed from OpenCV's documented `drawContours` semantics
for one explicit polygon. -/

/-- The axis-aligned square contour `[(0,0), (3,0), (3,3), (0,3)]`. -/
def sq3 : List Pt := [(0, 0), (3, 0), (3, 3), (0, 3)]

/-- Modelled from OpenCV's documented `drawContours(..., thickness=FILLED)`
semantics for the axis-aligned square contour `sq3`: the filled contour
covers its interior and boundary, i.e. exactly the pixel block
`[0,3] x [0,3]` (in particular every vertex pixel is covered). -/
def rasterSq3 : List Pt → ℕ → ℕ → Bool := fun _ y x => decide (y ≤ 3 ∧ x ≤ 3)

/-- A processor state whose paper mask has a background pixel at (0, 0): an
image is loaded, the spot mask is empty, and the paper mask is 255 everywhere
except pixel (0, 0). -/
def stateWithPaperHole : VsaState :=
  ⟨true, fun _ _ => 0, [], fun y x => if y = 0 ∧ x = 0 then 0 else 255⟩

/-- C2 counterexample: from a state whose spot mask is a subset of the paper
mask, the manual polygon fill `fill_poly_selection` sets pixel (0, 0) of the
spot mask to foreground even though the paper mask is background there — the
operation never consults the paper mask — so after this mutation the spot
mask is not a subset of the paper mask. -/
theorem fill_poly_escapes_paper_mask :
    (fill_poly_selection rasterSq3 (fun _ => []) stateWithPaperHole sq3).spot_mask 0 0 = 255 ∧
    (fill_poly_selection rasterSq3 (fun _ => []) stateWithPaperHole sq3).paper_mask 0 0 = 0 := by
  constructor <;> rfl

/-- C2 (amended): whole-image segmentation forces every pixel outside the
paper mask to background (its result is always a subset of the paper mask),
and the manual polygon clear never adds a foreground pixel, so it preserves
the subset property; the manual polygon fill (and likewise the other
mask-writing operations) writes foreground without consulting the paper
mask and can break the subset property. -/
theorem spot_mask_subset_after_segment_and_clear :
    (∀ (otsu : List ℕ → ℤ) (findContours : Roi → (ℕ → ℕ → ℕ) → List (List Pt))
      (img img_extended : Img) (img_median : ℚ) (paper_mask : ℕ → ℕ → ℕ)
      (threshold_adjustment : ℤ) (min_range : ℕ) (min_dist_from_median : ℚ)
      (win_size y x : ℕ), paper_mask y x = 0 →
      segment_spots otsu findContours img img_extended img_median paper_mask
        threshold_adjustment min_range min_dist_from_median win_size y x = 0) ∧
    (∀ (raster : List Pt → ℕ → ℕ → Bool)
      (findContours : (ℕ → ℕ → ℕ) → List (List Pt))
      (s : VsaState) (polygon : List Pt) (y x : ℕ),
      (clear_poly_selection raster findContours s polygon).spot_mask y x ≠ 0 →
      s.spot_mask y x ≠ 0) := by
  constructor
  · intro otsu findContours img img_extended img_median paper_mask adj mr mdfm win y x hp
    simp only [segment_spots]
    rw [if_pos hp]
  · intro raster findContours s polygon y x h
    rw [clear_poly_selection] at h
    split at h
    · exact h
    · rw [vectorize_spots] at h
      simp only at h
      split at h
      · exact absurd rfl h
      · exact h

/-- Witness for the amended C2 theorem: both conjuncts applied at concrete
inputs (an all-background paper mask for segmentation; an all-foreground
spot mask with a rasterizer covering nothing for the clear operation). -/
theorem spot_mask_subset_after_segment_and_clear_witness :
    segment_spots (fun _ => 0) (fun _ _ => []) ⟨1, 1, fun _ _ => 0⟩
      ⟨1, 1, fun _ _ => 0⟩ 0 (fun _ _ => 0) 0 0 0 100 0 0 = 0 ∧
    (⟨true, fun _ _ => 255, [], fun _ _ => 0⟩ : VsaState).spot_mask 0 0 ≠ 0 :=
  ⟨spot_mask_subset_after_segment_and_clear.1 _ _ _ _ _ _ _ _ _ _ _ _ rfl,
    spot_mask_subset_after_segment_and_clear.2 (fun _ _ _ => false) (fun _ => [])
      ⟨true, fun _ _ => 255, [], fun _ _ => 0⟩ [] 0 0 (by decide)⟩

/-- A processor state whose spot mask already has a foreground pixel inside
the square `sq3`: an image is loaded, the spot mask is 255 at pixel (0, 0)
and background elsewhere, and the paper mask is full. -/
def stateWithSpotAtOrigin : VsaState :=
  ⟨true, (fun y x => if y = 0 ∧ x = 0 then 255 else 0), [], fun _ _ => 255⟩

/-- C3 counterexample: with a spot mask holding foreground at pixel (0, 0),
filling the square polygon `sq3` and then clearing it leaves pixel (0, 0) —
inside the polygon's region — at background 0, not at its prior value 255,
so fill-then-clear does not restore the spot mask within the region. -/
theorem fill_then_clear_loses_prior_foreground :
    (clear_poly_selection rasterSq3 (fun _ => [])
      (fill_poly_selection rasterSq3 (fun _ => []) stateWithSpotAtOrigin sq3)
      sq3).spot_mask 0 0 = 0 ∧
    stateWithSpotAtOrigin.spot_mask 0 0 = 255 := by
  constructor <;> rfl

/-- C3 (amended): filling then clearing the same polygon leaves the spot
mask unchanged outside the polygon's rasterized region, and forces every
pixel inside the region to background — so the prior state is restored
within the region exactly when it was already background there. -/
theorem fill_poly_selection_imgLoaded (raster : List Pt → ℕ → ℕ → Bool)
    (findContours : (ℕ → ℕ → ℕ) → List (List Pt)) (s : VsaState) (polygon : List Pt) :
    (fill_poly_selection raster findContours s polygon).imgLoaded = s.imgLoaded := by
  rw [fill_poly_selection]
  split
  · rfl
  · rfl

theorem fill_poly_selection_spot_mask (raster : List Pt → ℕ → ℕ → Bool)
    (findContours : (ℕ → ℕ → ℕ) → List (List Pt)) (s : VsaState) (polygon : List Pt)
    (h : s.imgLoaded = true) :
    (fill_poly_selection raster findContours s polygon).spot_mask
      = fun y x => if raster polygon y x then 255 else s.spot_mask y x := by
  rw [fill_poly_selection, if_neg (by simp [h])]
  rfl

theorem clear_poly_selection_spot_mask (raster : List Pt → ℕ → ℕ → Bool)
    (findContours : (ℕ → ℕ → ℕ) → List (List Pt)) (s : VsaState) (polygon : List Pt)
    (h : s.imgLoaded = true) :
    (clear_poly_selection raster findContours s polygon).spot_mask
      = fun y x => if raster polygon y x then 0 else s.spot_mask y x := by
  rw [clear_poly_selection, if_neg (by simp [h])]
  rfl

theorem fill_then_clear_effect (raster : List Pt → ℕ → ℕ → Bool)
    (findContours : (ℕ → ℕ → ℕ) → List (List Pt)) (s : VsaState)
    (polygon : List Pt) (y x : ℕ) (h : s.imgLoaded = true) :
    (clear_poly_selection raster findContours
        (fill_poly_selection raster findContours s polygon) polygon).spot_mask y x
      = if raster polygon y x then 0 else s.spot_mask y x := by
  rw [clear_poly_selection_spot_mask _ _ _ _
    (by rw [fill_poly_selection_imgLoaded, h])]
  simp only
  split
  · rfl
  · next hr =>
    rw [fill_poly_selection_spot_mask _ _ _ _ h]
    simp only
    rw [if_neg hr]

/-- Witness for the amended C3 theorem at a concrete state and polygon. -/
theorem fill_then_clear_effect_witness :
    (clear_poly_selection rasterSq3 (fun _ => [])
        (fill_poly_selection rasterSq3 (fun _ => []) stateWithSpotAtOrigin sq3)
        sq3).spot_mask 5 5
      = if rasterSq3 sq3 5 5 then 0 else stateWithSpotAtOrigin.spot_mask 5 5 :=
  fill_then_clear_effect rasterSq3 (fun _ => []) stateWithSpotAtOrigin sq3 5 5 rfl

/-! Lemmas for the measurement/aggregation claim. -/

theorem classOf_of_length_ne_three (tl : List ℚ) (h : tl.length ≠ 3) (v : ℚ) :
    classOf tl v = none := by
  match tl with
  | [] => rfl
  | [a] => rfl
  | [a, b] => rfl
  | [a, b, c] => exact absurd rfl h
  | a :: b :: c :: d :: rest => rfl

theorem buildSpotProps_ok_cons (raster : List Pt → ℕ → ℕ → Bool)
    (dist_map : ℕ → ℕ → ℕ) (H W : ℕ) (c1 c2 ppcm : ℚ) (tl : List ℚ)
    (hppcm : ppcm ≠ 0) (p : Pt) (ps : List Pt) :
    ∃ r : SpotProps,
      buildSpotProps raster dist_map H W c1 c2 ppcm tl (p :: ps) = .ok r ∧
      r.cls = classOf tl (map_area c1 c2 (polygon_area (p :: ps) / ppcm ^ 2)) := by
  simp only [buildSpotProps, polygon_mbr, polygon_perimeter]
  rw [if_neg hppcm]
  exact ⟨_, rfl, rfl⟩

theorem buildAllProps_ok_of_all_ok (f : List Pt → Except String SpotProps)
    (polys : List (List Pt))
    (hf : ∀ p ∈ polys, ∃ r, f p = .ok r ∧ r.cls = none) :
    ∃ rs : List SpotProps, buildAllProps f polys = .ok rs ∧
      rs.length = polys.length ∧ ∀ r ∈ rs, r.cls = none := by
  induction polys with
  | nil => exact ⟨[], rfl, rfl, by simp⟩
  | cons p rest ih =>
    obtain ⟨r, hr, hrc⟩ := hf p (by simp)
    obtain ⟨rs, hrs, hlen, hcls⟩ := ih fun q hq => hf q (by simp [hq])
    refine ⟨r :: rs, ?_, by simp [hlen], ?_⟩
    · rw [buildAllProps, hr, hrs]
    · intro q hq
      rcases List.mem_cons.mp hq with h | h
      · rw [h]; exact hrc
      · exact hcls q h

/-- C10: when `measure_spots` is called with a size-threshold list whose
length is not exactly 3 and at least one spot polygon exists (with the
polygons nonempty point lists and a nonzero pixels-per-cm scale, as produced
in any real run), no `'class'` field is assigned to any record, and the
aggregation pass reading each record's `'class'` raises an unhandled
`KeyError` instead of returning an area total. -/
theorem measure_spots_keyerror_without_three_thresholds
    (raster : List Pt → ℕ → ℕ → Bool) (dist_map : ℕ → ℕ → ℕ) (H W : ℕ)
    (c1 c2 pix_per_cm : ℚ) (size_thresh_list : List ℚ)
    (polygons : List (List Pt))
    (hlen : size_thresh_list.length ≠ 3) (hne : polygons ≠ [])
    (hpoly : ∀ p ∈ polygons, p ≠ []) (hppcm : pix_per_cm ≠ 0) :
    measure_spots raster dist_map H W c1 c2 pix_per_cm size_thresh_list polygons
      = .error "KeyError: class" := by
  have hf : ∀ p ∈ polygons, ∃ r,
      buildSpotProps raster dist_map H W c1 c2 pix_per_cm size_thresh_list p
        = .ok r ∧ r.cls = none := by
    intro p hp
    match p, hpoly p hp with
    | q :: qs, _ =>
      obtain ⟨r, hr, hrc⟩ := buildSpotProps_ok_cons raster dist_map H W c1 c2
        pix_per_cm size_thresh_list hppcm q qs
      exact ⟨r, hr, by rw [hrc]; exact classOf_of_length_ne_three _ hlen _⟩
  obtain ⟨rs, hrs, hlen2, hcls⟩ := buildAllProps_ok_of_all_ok _ _ hf
  rw [measure_spots, hrs]
  have hperm := List.mergeSort_perm rs fun a b => decide (b.volume_ul ≤ a.volume_ul)
  cases hs : rs.mergeSort fun a b => decide (b.volume_ul ≤ a.volume_ul) with
  | nil =>
    exfalso
    have hlrs := hperm.length_eq
    rw [hs] at hlrs
    simp only [List.length_nil] at hlrs
    rw [hlen2] at hlrs
    exact hne (List.length_eq_zero.mp hlrs.symm)
  | cons r0 rest =>
    have hr0 : r0 ∈ rs := hperm.mem_iff.mp (by rw [hs]; simp)
    dsimp only
    rw [hs, sumNonJunk, hcls r0 hr0]

/-- Witness for C10 at a concrete call: one single-point spot polygon and an
empty size-threshold list. -/
theorem measure_spots_keyerror_without_three_thresholds_witness :
    measure_spots (fun _ _ _ => false) (fun _ _ => 0) 1 1 0 0 1 []
      [[((0 : ℤ), (0 : ℤ))]] = .error "KeyError: class" :=
  measure_spots_keyerror_without_three_thresholds _ _ _ _ _ _ _ _ _
    (by decide) (by decide) (by decide) (by norm_num)

/-! Tiling lemmas for whole-image segmentation. -/

/-- The value that the stitching loop writes at any pixel of a tile's window:
the accepted ROI-local mask sample, or NaN for a rejected tile. -/
def tileValue (find_mask : Roi → Option (ℕ → ℕ → ℕ)) (t : Tile) (y x : ℕ) : FVal :=
  match find_mask (tileRoi t) with
  | some rm => .num (rm (y - t.y1) (x - t.x1))
  | none => .nan

theorem writeTile_of_not_contains (fm : Roi → Option (ℕ → ℕ → ℕ))
    (m : ℕ → ℕ → FVal) (t : Tile) (y x : ℕ) (h : ¬ tileContains t y x) :
    writeTile fm m t y x = m y x := by
  rw [writeTile]
  cases hfm : fm (tileRoi t) with
  | none => exact if_neg h
  | some rm => exact if_neg h

theorem writeTile_of_contains (fm : Roi → Option (ℕ → ℕ → ℕ))
    (m : ℕ → ℕ → FVal) (t : Tile) (y x : ℕ) (h : tileContains t y x) :
    writeTile fm m t y x = tileValue fm t y x := by
  rw [writeTile, tileValue]
  cases hfm : fm (tileRoi t) with
  | none => exact if_pos h
  | some rm => exact if_pos h

theorem foldl_writeTile_of_no_contains (fm : Roi → Option (ℕ → ℕ → ℕ))
    (L : List Tile) (m : ℕ → ℕ → FVal) (y x : ℕ)
    (h : ∀ t ∈ L, ¬ tileContains t y x) :
    L.foldl (writeTile fm) m y x = m y x := by
  induction L generalizing m with
  | nil => rfl
  | cons t rest ih =>
    rw [List.foldl_cons, ih _ fun u hu => h u (by simp [hu])]
    exact writeTile_of_not_contains fm m t y x (h t (by simp))

theorem foldl_writeTile_unique (fm : Roi → Option (ℕ → ℕ → ℕ))
    (L : List Tile) (m : ℕ → ℕ → FVal) (t : Tile) (y x : ℕ)
    (ht : t ∈ L) (hc : tileContains t y x)
    (hu : ∀ u ∈ L, tileContains u y x → u = t) :
    L.foldl (writeTile fm) m y x = tileValue fm t y x := by
  induction L generalizing m with
  | nil => exact absurd ht (by simp)
  | cons a rest ih =>
    rw [List.foldl_cons]
    by_cases hmem : t ∈ rest
    · exact ih _ hmem fun u hu2 hcu => hu u (by simp [hu2]) hcu
    · have hta : t = a := by
        rcases List.mem_cons.mp ht with h | h
        · exact h
        · exact absurd h hmem
      have hnorest : ∀ u ∈ rest, ¬ tileContains u y x := by
        intro u hu2 hcu
        have hut := hu u (List.mem_cons_of_mem a hu2) hcu
        exact hmem (hut ▸ hu2)
      rw [foldl_writeTile_of_no_contains fm rest _ y x hnorest, ← hta]
      exact writeTile_of_contains fm m t y x hc

theorem le_ceilDiv_mul (n win : ℕ) (hwin : 0 < win) :
    n ≤ (n + win - 1) / win * win := by
  rcases Nat.eq_zero_or_pos n with h0 | hpos
  · simp [h0]
  · have h1 : n + win - 1 = (n - 1) + win := by omega
    rw [h1, Nat.add_div_right _ hwin]
    have h2 := Nat.lt_div_mul_add (a := n - 1) hwin
    have h3 : ((n - 1) / win + 1) * win = (n - 1) / win * win + win := by ring
    rw [h3]
    omega

theorem tileAt_contains (h w win y x : ℕ) (hwin : 0 < win) (hy : y < h) (hx : x < w) :
    tileContains (tileAt h w win y x) y x := by
  refine ⟨Nat.div_mul_le_self y win, ?_, Nat.div_mul_le_self x win, ?_⟩
  · exact lt_min (Nat.lt_div_mul_add hwin) hy
  · exact lt_min (Nat.lt_div_mul_add hwin) hx

theorem tileAt_mem_tileList (h w win y x : ℕ) (hwin : 0 < win)
    (hy : y < h) (hx : x < w) :
    tileAt h w win y x ∈ tileList h w win := by
  rw [tileList]
  simp only [List.mem_flatMap, List.mem_map, List.mem_range]
  refine ⟨y / win, ?_, x / win, ?_, rfl⟩
  · rw [Nat.div_lt_iff_lt_mul hwin]
    exact lt_of_lt_of_le hy (le_ceilDiv_mul h win hwin)
  · rw [Nat.div_lt_iff_lt_mul hwin]
    exact lt_of_lt_of_le hx (le_ceilDiv_mul w win hwin)

theorem mem_tileList_contains_eq (h w win y x : ℕ) (hwin : 0 < win)
    (t : Tile) (hmem : t ∈ tileList h w win) (hc : tileContains t y x) :
    t = tileAt h w win y x := by
  rw [tileList] at hmem
  simp only [List.mem_flatMap, List.mem_map, List.mem_range] at hmem
  obtain ⟨yi, _, xi, _, ht⟩ := hmem
  subst ht
  obtain ⟨hy1, hy2, hx1, hx2⟩ := hc
  have hxd : x / win = xi :=
    Nat.div_eq_of_lt_le hx1 (by rw [Nat.succ_mul]; exact lt_of_lt_of_le hx2 (min_le_left _ _))
  have hyd : y / win = yi :=
    Nat.div_eq_of_lt_le hy1 (by rw [Nat.succ_mul]; exact lt_of_lt_of_le hy2 (min_le_left _ _))
  rw [tileAt, hxd, hyd]

theorem castU8_num_mask (v : ℕ) (h : v = 0 ∨ v = 255) : castU8 (.num (v : ℚ)) = v := by
  rcases h with h | h <;> rw [h] <;> norm_num [castU8] <;> decide

theorem find_spots_mask_values (otsu : List ℕ → ℤ)
    (findContours : Roi → (ℕ → ℕ → ℕ) → List (List Pt))
    (img_extended : Img) (img_median : ℚ) (r : Roi)
    (threshold_adjustment : ℤ) (min_range : ℕ) (min_dist_from_median : ℚ)
    (rm : ℕ → ℕ → ℕ)
    (h : (find_spots_in_rect otsu findContours img_extended img_median r
      threshold_adjustment min_range min_dist_from_median).2 = some rm) :
    ∀ dy dx, rm dy dx = 0 ∨ rm dy dx = 255 := by
  rw [find_spots_in_rect] at h
  split at h
  · exact absurd h (by simp)
  · split at h
    · exact absurd h (by simp)
    · split at h
      · exact absurd h (by simp)
      · split at h
        · exact absurd h (by simp)
        · simp only at h
          have hrm := Option.some.inj h
          intro dy dx
          rw [← hrm]
          dsimp only
          split
          · right; rfl
          · left; rfl

/-- Pointwise description of the stitched float mask: at any in-bounds pixel,
the result of the tiling loop is the value written by the unique tile of the
grid containing that pixel. -/
theorem segment_spots_pointwise (otsu : List ℕ → ℤ)
    (findContours : Roi → (ℕ → ℕ → ℕ) → List (List Pt))
    (img img_extended : Img) (img_median : ℚ) (paper_mask : ℕ → ℕ → ℕ)
    (threshold_adjustment : ℤ) (min_range : ℕ) (min_dist_from_median : ℚ)
    (win : ℕ) (hwin : 0 < win) (y x : ℕ) (hy : y < img.h) (hx : x < img.w) :
    segment_spots otsu findContours img img_extended img_median paper_mask
      threshold_adjustment min_range min_dist_from_median win y x =
      if paper_mask y x = 0 then 0
      else castU8 (tileValue
        (fun roi => (find_spots_in_rect otsu findContours img_extended
          img_median roi threshold_adjustment min_range min_dist_from_median).2)
        (tileAt img.h img.w win y x) y x) := by
  rw [segment_spots]
  simp only
  by_cases hp : paper_mask y x = 0
  · rw [if_pos hp, if_pos hp]
  · rw [if_neg hp, if_neg hp]
    congr 1
    exact foldl_writeTile_unique _ _ _ _ y x
      (tileAt_mem_tileList img.h img.w win y x hwin hy hx)
      (tileAt_contains img.h img.w win y x hwin hy hx)
      (fun u hu hcu => mem_tileList_contains_eq img.h img.w win y x hwin u hu hcu)

/-- C1: on every loaded image, `segment_spots` (with its default window size
100) behaves pointwise, at every in-bounds pixel, as: take the grid tile of
side 100 containing the pixel (clipped to the image bounds at the right and
bottom edges), run `_find_spots_in_rect` independently on that tile alone,
use the accepted tile's thresholded mask sample at the pixel's tile-local
coordinates, or background 0 if the tile was rejected; and finally force the
pixel to background whenever it lies outside the paper mask. -/
theorem segment_spots_tiles_thresholds_stitches_and_intersects
    (otsu : List ℕ → ℤ) (findContours : Roi → (ℕ → ℕ → ℕ) → List (List Pt))
    (img img_extended : Img) (img_median : ℚ) (paper_mask : ℕ → ℕ → ℕ)
    (threshold_adjustment : ℤ) (min_range : ℕ) (min_dist_from_median : ℚ)
    (y x : ℕ) (hy : y < img.h) (hx : x < img.w) :
    segment_spots otsu findContours img img_extended img_median paper_mask
      threshold_adjustment min_range min_dist_from_median 100 y x =
      if paper_mask y x = 0 then 0
      else
        match (find_spots_in_rect otsu findContours img_extended img_median
            (tileRoi (tileAt img.h img.w 100 y x)) threshold_adjustment
            min_range min_dist_from_median).2 with
        | some rm => rm (y - y / 100 * 100) (x - x / 100 * 100)
        | none => 0 := by
  rw [segment_spots_pointwise otsu findContours img img_extended img_median
    paper_mask threshold_adjustment min_range min_dist_from_median 100
    (by norm_num) y x hy hx]
  by_cases hp : paper_mask y x = 0
  · rw [if_pos hp, if_pos hp]
  · rw [if_neg hp, if_neg hp, tileValue]
    cases hfm : (find_spots_in_rect otsu findContours img_extended img_median
        (tileRoi (tileAt img.h img.w 100 y x)) threshold_adjustment
        min_range min_dist_from_median).2 with
    | none => rfl
    | some rm =>
      exact castU8_num_mask _ (find_spots_mask_values otsu findContours
        img_extended img_median _ threshold_adjustment min_range
        min_dist_from_median rm hfm _ _)

/-- Witness for C1 on a concrete 1x1 image whose paper mask is background at
the only pixel (the right-hand side reduces to 0 there). -/
theorem segment_spots_tiles_thresholds_stitches_and_intersects_witness :
    segment_spots (fun _ => 0) (fun _ _ => []) ⟨1, 1, fun _ _ => 5⟩
      ⟨1, 1, fun _ _ => 5⟩ 0 (fun _ _ => 0) 0 0 0 100 0 0 = 0 :=
  segment_spots_tiles_thresholds_stitches_and_intersects
    (fun _ => 0) (fun _ _ => []) ⟨1, 1, fun _ _ => 5⟩ ⟨1, 1, fun _ _ => 5⟩ 0
    (fun _ _ => 0) 0 0 0 0 0 (by norm_num) (by norm_num)

end SpotiFind
